import Mathlib

/-!
Shallow embedding of the vscode-imgbytesizer extension core
(`src/utils.ts` and `src/commands.ts`).

Modelling conventions:
* JavaScript strings are Lean `String`s; all string operations are
  implemented over `String.data` (lists of characters) so that concrete
  instances evaluate inside the kernel.
* Node's `path.parse` / `path.join` / `path.dirname` (POSIX flavour) are
  embedded as `parsePath`, `pathJoin`, `dirname`.
* The filesystem (`fs.existsSync`) and the spawned process
  (`child_process.spawnSync`) are oracles supplied in a `RunEnv`; the side
  effects performed by `runImgbytesizer` (directory creation, process
  spawn) are returned as an explicit `Effect` trace.
* A JavaScript `number` that can be `NaN` is modelled as `Option Int`
  (`none` = `NaN`); an optional such field is `Option (Option Int)`.
* VS Code prompt interactions are an oracle `Ui`; a prompt answer of
  `none` is the user cancelling ("no answer" / `undefined`).
-/

namespace ImgBytes

/-! ### JavaScript / Node string primitives -/

/-- JavaScript whitespace characters relevant to `String.prototype.trim`
and `parseInt` (space, tab, newline, carriage return, vertical tab,
form feed). -/
def wsChar (c : Char) : Bool :=
  c = ' ' || c = '\t' || c = '\n' || c = '\r' || c = '\x0b' || c = '\x0c'

/-- JavaScript `String.prototype.trim`. -/
def trimWs (s : String) : String :=
  (((s.data.dropWhile wsChar).reverse.dropWhile wsChar).reverse).asString

/-- JavaScript `String.prototype.startsWith`. -/
def strStarts (s pre : String) : Bool :=
  pre.data.isPrefixOf s.data

/-- Splits a list at the last occurrence of `c`: if `l = l₁ ++ c :: l₂`
with `c ∉ l₂`, returns `some (l₁, l₂)`; `none` when `c ∉ l`. -/
def breakLast (c : Char) (l : List Char) : Option (List Char × List Char) :=
  match l.reverse.span (fun x => x ≠ c) with
  | (_, []) => none
  | (afterRev, _ :: beforeRev) => some (beforeRev.reverse, afterRev.reverse)

/-! ### Node `path` (POSIX) -/

/-- Node `path.parse` restricted to the `(dir, base)` components: trailing
slashes are ignored, `dir` is everything before the last separator
(`"/"` when the path is root-relative with no further directories, `""`
when there is no separator). -/
def parsePath (p : String) : String × String :=
  let l := p.data
  let r := l.reverse.dropWhile (fun c => c = '/')
  if r = [] then
    (if l = [] then ("", "") else ("/", ""))
  else
    match breakLast '/' r.reverse with
    | none => ("", r.reverse.asString)
    | some (before, after) =>
        ((if before = [] then "/" else before.asString), after.asString)

/-- Node `path.parse` restricted to the `(name, ext)` split of a base
name: the extension starts at the last dot, except that a dot in first
position (dotfiles such as `.hidden`) and the special name `".."` yield
an empty extension. -/
def splitBase (base : String) : String × String :=
  if base = ".." then (base, "")
  else
    match breakLast '.' base.data with
    | none => (base, "")
    | some (before, after) =>
        if before = [] then (base, "")
        else (before.asString, ('.' :: after).asString)

/-- Splits a character list into its `/`-separated segments (the
segment list is always non-empty; consecutive separators yield empty
segments). -/
def splitSegs : List Char → List (List Char)
  | [] => [[]]
  | c :: rest =>
      match splitSegs rest with
      | [] => [[]]
      | seg :: segs => if c = '/' then [] :: seg :: segs else (c :: seg) :: segs

/-- A path segment that Node's normalization keeps verbatim: non-empty
and neither `.` nor `..`. -/
def plainSeg (seg : List Char) : Bool :=
  seg ≠ [] && seg ≠ ['.'] && seg ≠ ['.', '.']

/-- One step of Node's `normalizeString` segment resolution: empty and
`.` segments are dropped, `..` pops the previous segment (or is kept,
for relative paths that climb above their root), anything else is
kept.  The accumulator holds the resolved segments in reverse. -/
def normStep (allowAboveRoot : Bool) (acc : List (List Char)) (seg : List Char) :
    List (List Char) :=
  if seg = [] ∨ seg = ['.'] then acc
  else if seg = ['.', '.'] then
    match acc with
    | top :: rest =>
        if top = ['.', '.'] then (if allowAboveRoot then seg :: acc else acc) else rest
    | [] => if allowAboveRoot then [seg] else []
  else seg :: acc

/-- Node's `normalizeString`: resolve `.`/`..`/empty segments. -/
def normSegs (allowAboveRoot : Bool) (segs : List (List Char)) : List (List Char) :=
  (segs.foldl (normStep allowAboveRoot) []).reverse

/-- Rejoins segments with `/` separators (inverse of `splitSegs`). -/
def joinSegs : List (List Char) → List Char
  | [] => []
  | seg :: rest =>
      match rest with
      | [] => seg
      | _ :: _ => seg ++ '/' :: joinSegs rest

/-- Node `path.normalize` (POSIX): resolves `.` and `..` segments,
collapses repeated separators, preserves a leading `/` and a trailing
separator, and falls back to `.` / `/` / `./` for empty results. -/
def normalizePath (p : String) : String :=
  if p = "" then "."
  else
    let l := p.data
    let isAbsolute : Bool := l.head? = some '/'
    let trailingSeparator : Bool := l.getLast? = some '/'
    let core := joinSegs (normSegs (!isAbsolute) (splitSegs l))
    if core = [] then
      (if isAbsolute then "/" else if trailingSeparator then "./" else ".")
    else
      let core2 := if trailingSeparator then core ++ ['/'] else core
      (if isAbsolute then '/' :: core2 else core2).asString

/-- Node `path.join` for the two-argument case used by the extension:
empty parts are skipped and the `/`-joined result is normalized; with
no parts left the result is `"."`. -/
def pathJoin (dir base : String) : String :=
  if dir = "" ∧ base = "" then "."
  else if dir = "" then normalizePath base
  else if base = "" then normalizePath dir
  else normalizePath (dir ++ "/" ++ base)

/-- A directory string that Node's normalization leaves unchanged when
another segment is appended: its segments are all plain, apart from the
leading empty segment of an absolute path. -/
def normalizedDir (d : String) : Bool :=
  match splitSegs d.data with
  | [] :: segs => decide (segs ≠ []) && segs.all plainSeg
  | segs => segs.all plainSeg

/-- Node `path.dirname`. -/
def dirname (p : String) : String :=
  let d := (parsePath p).1
  if d = "" then "." else d

/-- Node `path.extname`. -/
def extname (p : String) : String :=
  (splitBase (parsePath p).2).2

/-- JavaScript `String.prototype.toLowerCase` (ASCII range, which is all
the extension compares). -/
def lowerStr (s : String) : String :=
  (s.data.map Char.toLower).asString

/-! ### `src/utils.ts`: data model -/

/-- `ImgByteOptions` (utils.ts lines 6-12).  `minDimension` is a JS
number that may in principle be `NaN` (`some none`). -/
structure ImgByteOptions where
  exactSize : Option Bool
  format : Option String
  minDimension : Option (Option Int)
  outputPath : Option String
  targetSize : String
deriving DecidableEq

/-- Result record of `runImgbytesizer` (utils.ts line 109). -/
structure ExecutionResult where
  success : Bool
  message : String
  outputPath : Option String
deriving DecidableEq

/-- Outcome of `spawnSync`: a spawn-level `error`, the exit `status`
(`none` = JS `null`, e.g. killed by a signal), and captured output. -/
structure SpawnResult where
  error : Option String
  status : Option Int
  stdout : String
  stderr : String

/-- Oracle environment for one `runImgbytesizer` call: `fs` answers
`fs.existsSync` before the subprocess runs, `fsAfterSpawn` answers it for
the post-spawn output check, `config` is the configured
`imgbytesizer.imgbytesizerPath` value, and `spawn` is what `spawnSync`
returns. -/
structure RunEnv where
  fs : String → Bool
  fsAfterSpawn : String → Bool
  config : Option String
  spawn : SpawnResult

/-- Observable side effects of `runImgbytesizer`. -/
inductive Effect where
  | mkdir (dir : String)
  | spawn (exe : String) (args : List String)
deriving DecidableEq

/-! ### `src/utils.ts`: functions -/

/-- Shell metacharacter stripping in `validateImgbytesizerPath`
(utils.ts line 181): removes `;`, `&`, `|`, backtick (`0x60`) and `$`. -/
def stripMeta (s : String) : String :=
  (s.data.filter (fun c =>
    !(c = ';' || c = '&' || c = '|' || c = Char.ofNat 96 || c = '$'))).asString

/-- `validateImgbytesizerPath` (utils.ts lines 179-194): strips shell
metacharacters, accepts the bare command name `"imgbytesizer"` and paths
starting with `"/"` or `"./"`, and throws (modelled as `Except.error`)
otherwise. -/
def validateImgbytesizerPath (path : String) : Except String String :=
  let sanitized := stripMeta path
  if sanitized = "imgbytesizer" then Except.ok sanitized
  else if strStarts sanitized "/" = false && strStarts sanitized "./" = false then
    Except.error "Invalid imgbytesizer path: must be absolute or relative to current directory"
  else Except.ok sanitized

/-- `getImgbytesizerPath` (utils.ts lines 83-94): a falsy (absent or
empty) configured value means the default command name; otherwise the
trimmed configuration value is validated, any validation error falling
back to the default. -/
def getImgbytesizerPath (config : Option String) : String :=
  let path :=
    match config with
    | some s => if s = "" then "imgbytesizer" else trimWs s
    | none => "imgbytesizer"
  match validateImgbytesizerPath path with
  | Except.ok p => p
  | Except.error _ => "imgbytesizer"

/-- `getDefaultOutputPath` (utils.ts lines 73-78). -/
def getDefaultOutputPath (imagePath : String) (format : Option String) : String :=
  let parsed := parsePath imagePath
  let nameExt := splitBase parsed.2
  let newExt :=
    match format with
    | some f => if f ≠ "" && f ≠ "same" then "." ++ f else nameExt.2
    | none => nameExt.2
  (pathJoin parsed.1 nameExt.1) ++ "_resized" ++ newExt

/-- The `options.outputPath ?? getDefaultOutputPath(...)` resolution in
`runImgbytesizer` (utils.ts line 116). -/
def resolvedOutputPath (imagePath : String) (options : ImgByteOptions) : String :=
  match options.outputPath with
  | some s => s
  | none => getDefaultOutputPath imagePath options.format

/-- The argument vector `runImgbytesizer` passes to `spawnSync`
(utils.ts lines 124-140).  Each guard mirrors the JS truthiness test of
the source (`options.outputPath`, `options.format && ... !== 'same'`,
`options.minDimension && options.minDimension > 0`,
`options.exactSize === false`). -/
def runArgs (imagePath : String) (options : ImgByteOptions) : List String :=
  [imagePath, options.targetSize]
    ++ (match options.outputPath with
        | some s => if s ≠ "" then ["-o", s] else []
        | none => [])
    ++ (match options.format with
        | some f => if f ≠ "" && f ≠ "same" then ["-f", f] else []
        | none => [])
    ++ (match options.minDimension with
        | some (some n) => if n ≠ 0 && n > 0 then ["--min-dimension", toString n] else []
        | some none => []
        | none => [])
    ++ (if options.exactSize = some false then ["--no-exact"] else [])

/-- Rendering of a JS exit status in a template literal (`null` prints as
`"null"`). -/
def statusText : Option Int → String
  | some n => toString n
  | none => "null"

/-- `runImgbytesizer` (utils.ts lines 106-174), returning the
`ExecutionResult` together with the trace of filesystem/process side
effects it performed. -/
def runImgbytesizer (env : RunEnv) (imagePath : String) (options : ImgByteOptions) :
    ExecutionResult × List Effect :=
  if env.fs imagePath = false then
    ({ success := false, message := "Image file not found: " ++ imagePath,
       outputPath := none }, [])
  else
    let outputPath := resolvedOutputPath imagePath options
    let outputDir := dirname outputPath
    let dirEffects := if env.fs outputDir = false then [Effect.mkdir outputDir] else []
    let exe := getImgbytesizerPath env.config
    let effects := dirEffects ++ [Effect.spawn exe (runArgs imagePath options)]
    match env.spawn.error with
    | some e => ({ success := false, message := "Error: " ++ e, outputPath := none }, effects)
    | none =>
      if env.spawn.status ≠ some 0 then
        ({ success := false,
           message := "Command failed with status " ++ statusText env.spawn.status
             ++ ". Error: " ++ env.spawn.stderr,
           outputPath := none }, effects)
      else if env.fsAfterSpawn outputPath = false then
        ({ success := false,
           message := "Failed to create output file: " ++ outputPath
             ++ ". Command output: " ++ env.spawn.stdout,
           outputPath := none }, effects)
      else
        ({ success := true,
           message := "Image resized successfully to " ++ options.targetSize,
           outputPath := some outputPath }, effects)

/-! ### `src/commands.ts` -/

/-- The five `imgbytesizer.*` configuration values as stored in the host
configuration (absent = not configured). -/
structure ExtConfig where
  defaultExact : Option Bool
  defaultFormat : Option String
  defaultMinDimension : Option Int
  defaultTargetSize : Option String
  imgbytesizerPath : Option String

/-- The record produced by `getDefaultOptions` (utils.ts lines 60-68):
every field is populated from configuration with a `??` fallback. -/
structure DefaultOptions where
  exactSize : Bool
  format : String
  minDimension : Int
  targetSize : String

/-- `getDefaultOptions` (utils.ts lines 60-68). -/
def getDefaultOptions (c : ExtConfig) : DefaultOptions :=
  { exactSize := c.defaultExact.getD true
    format := c.defaultFormat.getD "same"
    minDimension := c.defaultMinDimension.getD 0
    targetSize := c.defaultTargetSize.getD "500KB" }

/-- The options value the simple flow builds (commands.ts lines 50-59):
`'same'` format and `0` minDimension are normalized to absence, and the
output path is always set to the derived default. -/
def simpleFlowOptions (imagePath : String) (c : ExtConfig) (targetSize : String) :
    ImgByteOptions :=
  let d := getDefaultOptions c
  { exactSize := some d.exactSize
    format := if d.format = "same" then none else some d.format
    minDimension := if d.minDimension = 0 then none else some (some d.minDimension)
    outputPath := some (getDefaultOutputPath imagePath (some d.format))
    targetSize := targetSize }

/-- Scripted answers of the host prompt services for one command
invocation; `none` is the user cancelling the prompt. -/
structure Ui where
  sizePick : Option String
  customSize : Option String
  formatPick : Option String
  outPathInput : Option String
  minDimInput : Option String
  exactPick : Option String

/-- `showTargetSizeQuickPick` (commands.ts lines 268-292): a preset pick,
with the `"Custom size..."` entry forwarding to a free-text prompt. -/
def showTargetSizeQuickPick (ui : Ui) : Option String :=
  match ui.sizePick with
  | none => none
  | some s => if s = "Custom size..." then ui.customSize else some s

/-- Fuel-driven base-2 logarithm (`log2Fuel n n = Nat.log2 n`), written
with structural recursion so that it evaluates inside the kernel. -/
def log2Fuel : Nat → Nat → Nat
  | 0, _ => 0
  | fuel + 1, n => if n < 2 then 0 else log2Fuel fuel (n / 2) + 1

/-- Rounding of a natural number to the nearest IEEE-754 double
(53-bit significand, round half to even), as JavaScript does when a
parsed digit string exceeds the exactly representable range.  The
overflow-to-Infinity cutoff at `2^1024` (inputs of 309+ digits) is not
represented; no claim exercises that regime, and below it the rounding
is exact. -/
def roundDouble (n : Nat) : Nat :=
  if n < 2 ^ 53 then n
  else
    let k := log2Fuel n n - 52
    let q := n / 2 ^ k
    let r := n % 2 ^ k
    let half := 2 ^ (k - 1)
    let q2 := if half < r ∨ (r = half ∧ q % 2 = 1) then q + 1 else q
    q2 * 2 ^ k

/-- JavaScript `parseInt(value, 10)`: skip leading whitespace, optional
sign, then the longest digit prefix, whose value is a double (rounded
to 53-bit precision); `none` is `NaN`. -/
def parseIntTen (s : String) : Option Int :=
  let l := s.data.dropWhile wsChar
  let signed : Bool × List Char :=
    match l with
    | '-' :: rest => (true, rest)
    | '+' :: rest => (false, rest)
    | _ => (false, l)
  let ds := signed.2.takeWhile Char.isDigit
  if ds = [] then none
  else
    let n : Int :=
      Int.ofNat (roundDouble (ds.foldl (fun acc c => acc * 10 + (c.toNat - '0'.toNat)) 0))
    some (if signed.1 then -n else n)

/-- The `validateInput` callback of the minimum-dimension input box
(commands.ts lines 181-187): `none` means the input is accepted, `some
msg` is the inline error shown (re-prompt). -/
def validateMinDimension (value : String) : Option String :=
  match parseIntTen value with
  | none => some "Please enter a valid number (0 or positive integer)."
  | some num =>
      if num < 0 then some "Please enter a valid number (0 or positive integer)."
      else none

/-- `getUserOptions` (commands.ts lines 154-208): the advanced flow's
five sequential prompts, aborting with `none` as soon as any prompt is
cancelled. -/
def getUserOptions (ui : Ui) (imagePath originalExt : String) : Option ImgByteOptions :=
  match showTargetSizeQuickPick ui with
  | none => none
  | some targetSize =>
    match ui.formatPick with
    | none => none
    | some format =>
      let defaultOutputPath :=
        getDefaultOutputPath imagePath (if format = "same" then none else some format)
      match ui.outPathInput with
      | none => none
      | some outputPath =>
        match ui.minDimInput with
        | none => none
        | some minDimensionInput =>
          let minDimension := parseIntTen minDimensionInput
          match ui.exactPick with
          | none => none
          | some exactChoice =>
            some { exactSize := some (exactChoice = "Yes")
                   format := if format = "same" then none else some format
                   minDimension := if minDimension = some 0 then none else some minDimension
                   outputPath := some (if outputPath = "" then defaultOutputPath else outputPath)
                   targetSize := targetSize }

/-- User-visible events a command handler produces. -/
inductive UiEvent where
  | runTool (imagePath : String) (options : ImgByteOptions)
  | showError (msg : String)
  | showInfo (msg : String)
deriving DecidableEq

/-- Image-path resolution shared by both handlers (commands.ts
lines 20-32): an explicit URI wins, else the active editor's file-scheme
document. -/
def resolveImagePath (uriPath activeFilePath : Option String) : Option String :=
  match uriPath with
  | some p => some p
  | none => activeFilePath

/-- The supported-extension guard (commands.ts lines 35-41). -/
def supportedImage (imagePath : String) : Bool :=
  lowerStr (extname imagePath) ∈ [".jpeg", ".jpg", ".png", ".webp"]

/-- `resizeImage` (commands.ts lines 9-92), as the list of user-visible
events of one invocation: installation guard, path resolution, extension
guard, target-size prompt (cancellation produces no further events),
then the subprocess run and its success/failure notification. -/
def resizeImage (installed : Bool) (uriPath activeFilePath : Option String)
    (ui : Ui) (c : ExtConfig) (env : RunEnv) : List UiEvent :=
  if installed = false then
    [UiEvent.showError "ImgByteSizer is not installed. Please install it first. https://github.com/pyyupsk/imgbytesizer#installation"]
  else
    match resolveImagePath uriPath activeFilePath with
    | none => [UiEvent.showError "Please select an image file in the explorer or editor."]
    | some imagePath =>
      if supportedImage imagePath = false then
        [UiEvent.showError "Selected file is not a supported image (jpg, jpeg, png, webp)."]
      else
        match showTargetSizeQuickPick ui with
        | none => []
        | some targetSize =>
          let options := simpleFlowOptions imagePath c targetSize
          let result := (runImgbytesizer env imagePath options).1
          UiEvent.runTool imagePath options ::
            (if result.success then
              [UiEvent.showInfo (result.message ++ " Output saved to: "
                ++ (match result.outputPath with | some s => s | none => "undefined"))]
            else
              [UiEvent.showError result.message])

/-- `resizeImageWithOptions` (commands.ts lines 97-110 together with
`validateImageAndGetPath` and `processImageResize`), as the list of
user-visible events of one invocation. -/
def resizeImageWithOptions (installed : Bool) (uriPath activeFilePath : Option String)
    (ui : Ui) (env : RunEnv) : List UiEvent :=
  if installed = false then
    [UiEvent.showError "ImgByteSizer is not installed. Please install it first. https://github.com/pyyupsk/imgbytesizer#installation"]
  else
    match resolveImagePath uriPath activeFilePath with
    | none => [UiEvent.showError "Please select an image file in the explorer or editor."]
    | some imagePath =>
      if supportedImage imagePath = false then
        [UiEvent.showError "Selected file is not a supported image (jpg, jpeg, png, webp)."]
      else
        match getUserOptions ui imagePath (extname imagePath) with
        | none => []
        | some options =>
          let result := (runImgbytesizer env imagePath options).1
          UiEvent.runTool imagePath options ::
            (if result.success then
              [UiEvent.showInfo (result.message ++ " Output saved to: "
                ++ (match result.outputPath with | some s => s | none => "undefined")),
               UiEvent.showInfo result.message]
            else
              [UiEvent.showError result.message])

/-- Spec-side reading (claim C7) of "the input string denotes a
non-negative integer": a non-empty all-digit decimal numeral. -/
def isNonNegIntegerLiteral (s : String) : Bool :=
  s.data ≠ [] && s.data.all Char.isDigit

/-- Spec-side argument-vector description of claim C3 (spec §4.3), to be
compared against `runArgs`: fixed order, `-o` iff outputPath is set,
`-f` iff format is set and not "same", `--min-dimension` iff
minDimension is set and positive, `--no-exact` iff exactSize is
exactly `false`. -/
def claimedArgs (imagePath : String) (options : ImgByteOptions) : List String :=
  [imagePath, options.targetSize]
    ++ (match options.outputPath with
        | some s => ["-o", s]
        | none => [])
    ++ (match options.format with
        | some f => if f = "same" then [] else ["-f", f]
        | none => [])
    ++ (match options.minDimension with
        | some (some n) => if 0 < n then ["--min-dimension", toString n] else []
        | _ => [])
    ++ (if options.exactSize = some false then ["--no-exact"] else [])

/-! ### Concrete instances used to witness the claims -/

/-- Environment for C1: input file and output directory exist, the
subprocess exits 0, yet no output file appears afterwards. -/
def c1Env : RunEnv :=
  { fs := fun p => decide (p = "/w/in.png") || decide (p = "/w")
    fsAfterSpawn := fun _ => false
    config := none
    spawn := ⟨none, some 0, "", ""⟩ }

/-- Options for C1: explicit output path, no optional flags. -/
def c1Opts : ImgByteOptions := ⟨none, none, none, some "/w/out.png", "500KB"⟩

/-- Configuration for the C2 scenario: nothing configured, so the stored
defaults are `format: same`, `minDimension: 0`, `exactSize: true`. -/
def c2Cfg : ExtConfig := ⟨none, none, none, none, none⟩

/-- The options the simple flow builds in the C2 scenario. -/
def c2Options : ImgByteOptions := simpleFlowOptions "/p/photo.jpg" c2Cfg "1MB"

/-- Environment for C2: input and its directory exist, the subprocess
exits 0 and the default output artifact appears. -/
def c2Env : RunEnv :=
  { fs := fun p => decide (p = "/p/photo.jpg") || decide (p = "/p")
    fsAfterSpawn := fun p => decide (p = "/p/photo_resized.jpg")
    config := none
    spawn := ⟨none, some 0, "", ""⟩ }

/-- Prompt script for C2: the user picks the `1MB` preset. -/
def c2Ui : Ui := ⟨some "1MB", none, none, none, none, none⟩

/-- Prompt script for C8: every prompt is cancelled. -/
def c8Ui : Ui := ⟨none, none, none, none, none, none⟩

/-- Empty configuration for C8. -/
def c8Cfg : ExtConfig := ⟨none, none, none, none, none⟩

/-- Inert runtime environment for C8 (never reached on the cancel path). -/
def c8Env : RunEnv := ⟨fun _ => false, fun _ => false, none, ⟨none, none, "", ""⟩⟩

/-! ### General helper lemmas -/

/-- A string is determined by its character data. -/
theorem strEq_of_data {a b : String} (h : a.data = b.data) : a = b := by
  cases a; cases b; exact congrArg String.mk h

theorem asString_data (s : String) : s.data.asString = s := by
  cases s; rfl

theorem data_eq_nil {s : String} : s.data = [] ↔ s = "" := by
  constructor
  · intro h; exact strEq_of_data h
  · intro h; rw [h]

theorem takeWhile_mid (p : Char → Bool) (xs : List Char) (y : Char) (ys : List Char)
    (h : ∀ x ∈ xs, p x = true) (hy : p y = false) :
    (xs ++ y :: ys).takeWhile p = xs := by
  induction xs with
  | nil => simp [List.takeWhile, hy]
  | cons a t ih =>
      simp only [List.cons_append, List.takeWhile_cons]
      rw [h a (by simp), ih (fun x hx => h x (by simp [hx]))]
      simp

theorem dropWhile_mid (p : Char → Bool) (xs : List Char) (y : Char) (ys : List Char)
    (h : ∀ x ∈ xs, p x = true) (hy : p y = false) :
    (xs ++ y :: ys).dropWhile p = y :: ys := by
  induction xs with
  | nil => simp [List.dropWhile, hy]
  | cons a t ih =>
      simp only [List.cons_append, List.dropWhile_cons]
      rw [h a (by simp), ih (fun x hx => h x (by simp [hx]))]
      simp

theorem takeWhile_all (p : Char → Bool) (l : List Char) (h : ∀ x ∈ l, p x = true) :
    l.takeWhile p = l := by
  induction l with
  | nil => rfl
  | cons a t ih =>
      simp [List.takeWhile_cons, h a (by simp), ih (fun x hx => h x (by simp [hx]))]

theorem digit_not_ws (c : Char) (h : c.isDigit = true) : wsChar c = false := by
  cases hw : wsChar c
  · rfl
  · exfalso
    unfold wsChar at hw
    simp only [Bool.or_eq_true, decide_eq_true_eq] at hw
    rcases hw with ((((h1 | h1) | h1) | h1) | h1) | h1 <;>
      (rw [h1] at h; exact absurd h (by decide))

theorem exists_mid (X E : List String) (x y : String) :
    ∃ l₁ l₂, X ++ [x, y] ++ E = l₁ ++ x :: y :: l₂ :=
  ⟨X, E, by simp⟩

theorem breakLast_eq (c : Char) (l₁ l₂ : List Char) (h : c ∉ l₂) :
    breakLast c (l₁ ++ c :: l₂) = some (l₁, l₂) := by
  unfold breakLast
  have hrev : (l₁ ++ c :: l₂).reverse = l₂.reverse ++ c :: l₁.reverse := by simp
  have htake : (l₂.reverse ++ c :: l₁.reverse).takeWhile (fun x => x ≠ c) = l₂.reverse := by
    refine takeWhile_mid _ _ _ _ (fun x hx => ?_) (by simp)
    have : x ≠ c := fun hxc => h (by simpa [hxc] using (List.mem_reverse).1 hx)
    simp [this]
  have hdrop : (l₂.reverse ++ c :: l₁.reverse).dropWhile (fun x => x ≠ c) = c :: l₁.reverse := by
    refine dropWhile_mid _ _ _ _ (fun x hx => ?_) (by simp)
    have : x ≠ c := fun hxc => h (by simpa [hxc] using (List.mem_reverse).1 hx)
    simp [this]
  rw [hrev, List.span_eq_take_drop, htake, hdrop]
  simp

/-- On a path `dir ++ "/" ++ base` whose base component is nonempty and
free of separators, `parsePath` recovers the two components (with the
Node convention that an empty `dir` prefix means the root directory). -/
theorem parsePath_concat (d base : String) (hb : base ≠ "") (hs : '/' ∉ base.data) :
    parsePath (d ++ "/" ++ base) = ((if d = "" then "/" else d), base) := by
  have hdata : (d ++ "/" ++ base).data = d.data ++ '/' :: base.data := by
    simp [String.data_append]
  have hbd : base.data ≠ [] := fun hnil => hb (data_eq_nil.1 hnil)
  obtain ⟨c, t, hct⟩ : ∃ c t, base.data.reverse = c :: t := by
    cases hr : base.data.reverse with
    | nil => exact absurd (by simpa using hr) hbd
    | cons c t => exact ⟨c, t, rfl⟩
  have hcmem : c ∈ base.data := (List.mem_reverse).1 (hct ▸ List.mem_cons_self c t)
  have hcslash : c ≠ '/' := fun hc => hs (hc ▸ hcmem)
  have hrev : (d.data ++ '/' :: base.data).reverse = c :: (t ++ '/' :: d.data.reverse) := by
    simp [hct]
  have hback : (c :: (t ++ '/' :: d.data.reverse)).reverse = d.data ++ '/' :: base.data := by
    have h := congrArg List.reverse hrev
    simpa using h.symm
  simp only [parsePath]
  rw [hdata, hrev]
  have hdropped : (c :: (t ++ '/' :: d.data.reverse)).dropWhile (fun x => x = '/')
      = c :: (t ++ '/' :: d.data.reverse) := by
    simp [List.dropWhile_cons, hcslash]
  rw [hdropped]
  have hne : (c :: (t ++ '/' :: d.data.reverse)) ≠ [] := by simp
  rw [if_neg hne, hback, breakLast_eq '/' d.data base.data hs]
  by_cases hd : d = ""
  · have hdn : d.data = [] := by rw [hd]
    simp [hdn, hd, asString_data]
  · have hdn : d.data ≠ [] := fun hnil => hd (data_eq_nil.1 hnil)
    simp [hdn, hd, asString_data]

/-- `splitBase` on a base name with a non-leading last dot follows
last-dot semantics: everything before the last dot is the stem,
the dot and what follows it the extension. -/
theorem splitBase_concat (s e : String) (hs : s ≠ "") (hse : ¬(s = "." ∧ e = ""))
    (he : '.' ∉ e.data) :
    splitBase (s ++ "." ++ e) = (s, "." ++ e) := by
  have hdata : (s ++ "." ++ e).data = s.data ++ '.' :: e.data := by
    simp [String.data_append]
  have hsd : s.data ≠ [] := fun hnil => hs (data_eq_nil.1 hnil)
  have hdd : (s ++ "." ++ e) ≠ ".." := by
    intro hcontra
    have h2 : s.data ++ '.' :: e.data = ['.', '.'] := by
      rw [← hdata, hcontra]
    obtain ⟨c, t, hct⟩ : ∃ c t, s.data = c :: t := by
      cases hr : s.data with
      | nil => exact absurd hr hsd
      | cons c t => exact ⟨c, t, rfl⟩
    rw [hct] at h2
    simp only [List.cons_append, List.cons.injEq] at h2
    obtain ⟨rfl, h3⟩ := h2
    cases t with
    | nil =>
        simp only [List.nil_append, List.cons.injEq, true_and] at h3
        have hsdot : s = "." := strEq_of_data (by rw [hct])
        exact hse ⟨hsdot, data_eq_nil.1 h3⟩
    | cons x t' =>
        simp at h3
  have h2 : ('.' :: e.data).asString = "." ++ e := by
    have h3 : ('.' :: e.data) = ("." ++ e).data := by simp [String.data_append]
    rw [h3, asString_data]
  simp only [splitBase]
  rw [if_neg hdd, hdata, breakLast_eq '.' s.data e.data he]
  simp [hsd, asString_data, h2]

/-- `splitBase` on a dotfile base name (leading dot, no other dot)
returns the whole base name as the stem and an empty extension. -/
theorem splitBase_dotfile (nm : String) (hnm : '.' ∉ nm.data) :
    splitBase ("." ++ nm) = ("." ++ nm, "") := by
  have hdata : ("." ++ nm).data = '.' :: nm.data := by simp [String.data_append]
  have hdd : ("." ++ nm) ≠ ".." := by
    intro hcontra
    have h2 : '.' :: nm.data = ['.', '.'] := by rw [← hdata, hcontra]
    simp only [List.cons.injEq] at h2
    exact hnm (h2.2 ▸ List.mem_cons_self '.' [])
  have hb : breakLast '.' ('.' :: nm.data) = some ([], nm.data) := by
    have h := breakLast_eq '.' [] nm.data hnm
    simpa using h
  simp only [splitBase]
  rw [if_neg hdd, hdata, hb]
  simp [← hdata, asString_data]

theorem splitSegs_ne_nil (l : List Char) : splitSegs l ≠ [] := by
  cases l with
  | nil => simp [splitSegs]
  | cons c rest =>
      simp only [splitSegs]
      rcases h : splitSegs rest with _ | ⟨seg, segs⟩
      · simp
      · by_cases hc : c = '/' <;> simp [hc]

theorem splitSegs_append (x y : List Char) :
    splitSegs (x ++ '/' :: y) = splitSegs x ++ splitSegs y := by
  induction x with
  | nil =>
      simp only [List.nil_append, splitSegs]
      rcases h : splitSegs y with _ | ⟨seg, segs⟩
      · exact absurd h (splitSegs_ne_nil y)
      · simp
  | cons c x' ih =>
      simp only [List.cons_append, splitSegs]
      simp only [List.append_eq]
      rw [ih]
      rcases h : splitSegs x' with _ | ⟨seg, segs⟩
      · exact absurd h (splitSegs_ne_nil x')
      · rcases h2 : splitSegs y with _ | ⟨seg2, segs2⟩
        · exact absurd h2 (splitSegs_ne_nil y)
        · simp only [List.cons_append]
          by_cases hc : c = '/' <;> simp [hc]

theorem splitSegs_single (y : List Char) (h : '/' ∉ y) : splitSegs y = [y] := by
  induction y with
  | nil => rfl
  | cons c rest ih =>
      have hc : c ≠ '/' := fun hcc => h (hcc ▸ List.mem_cons_self c rest)
      have hr : '/' ∉ rest := fun hm => h (List.mem_cons_of_mem c hm)
      simp only [splitSegs, ih hr]
      simp [hc]

theorem splitSegs_no_slash (l : List Char) (seg : List Char) (h : seg ∈ splitSegs l) :
    '/' ∉ seg := by
  induction l generalizing seg with
  | nil =>
      simp [splitSegs] at h
      simp [h]
  | cons c rest ih =>
      simp only [splitSegs] at h
      rcases hs : splitSegs rest with _ | ⟨seg0, segs⟩
      · exact absurd hs (splitSegs_ne_nil rest)
      · rw [hs] at h
        by_cases hc : c = '/'
        · simp [hc] at h
          rcases h with h | h | h
          · simp [h]
          · exact h ▸ ih seg0 (by rw [hs]; simp)
          · exact ih seg (by rw [hs]; simp [h])
        · simp [hc] at h
          rcases h with h | h
          · intro hm
            rw [h] at hm
            rcases List.mem_cons.1 hm with hm | hm
            · exact hc hm.symm
            · exact ih seg0 (by rw [hs]; simp) hm
          · exact ih seg (by rw [hs]; simp [h])

theorem joinSegs_splitSegs (l : List Char) : joinSegs (splitSegs l) = l := by
  induction l with
  | nil => rfl
  | cons c rest ih =>
      simp only [splitSegs]
      rcases h : splitSegs rest with _ | ⟨seg, segs⟩
      · exact absurd h (splitSegs_ne_nil rest)
      · rw [h] at ih
        by_cases hc : c = '/'
        · simp only [hc, if_pos rfl, joinSegs]
          rcases segs with _ | ⟨s2, ss⟩ <;> simp_all [joinSegs]
        · simp only [if_neg hc, joinSegs]
          rcases segs with _ | ⟨s2, ss⟩ <;> simp_all [joinSegs]

theorem joinSegs_append_last (a : List (List Char)) (b : List Char) (ha : a ≠ []) :
    joinSegs (a ++ [b]) = joinSegs a ++ '/' :: b := by
  induction a with
  | nil => exact absurd rfl ha
  | cons x xs ih =>
      rcases xs with _ | ⟨y, ys⟩
      · simp [joinSegs]
      · have := ih (by simp)
        simp only [List.cons_append, joinSegs] at this ⊢
        rcases hys : (y :: ys) ++ [b] with _ | ⟨z, zs⟩
        · simp at hys
        · simp_all

theorem normFold (ab : Bool) (segs : List (List Char)) (acc : List (List Char))
    (h : ∀ seg ∈ segs, plainSeg seg = true) :
    segs.foldl (normStep ab) acc = segs.reverse ++ acc := by
  induction segs generalizing acc with
  | nil => simp
  | cons x xs ih =>
      have hx := h x (List.mem_cons_self x xs)
      have hx3 : x ≠ [] ∧ x ≠ ['.'] ∧ x ≠ ['.', '.'] := by
        simpa [plainSeg, and_assoc] using hx
      have hstep : normStep ab acc x = x :: acc := by
        unfold normStep
        rw [if_neg (by push_neg; exact ⟨hx3.1, hx3.2.1⟩), if_neg hx3.2.2]
      rw [List.foldl_cons, hstep, ih (x :: acc) (fun seg hs => h seg (List.mem_cons_of_mem x hs))]
      simp

theorem getLast?_no_slash (l : List Char) (h : '/' ∉ l) : l.getLast? ≠ some '/' := by
  induction l with
  | nil => simp
  | cons a t ih =>
      rcases t with _ | ⟨b, t'⟩
      · have : a ≠ '/' := fun hc => h (hc ▸ List.mem_cons_self a [])
        simp [this]
      · rw [List.getLast?_cons_cons]
        exact ih (fun hm => h (List.mem_cons_of_mem a hm))

/-- `path.normalize` is the identity on an absolute path whose segments
are plain and which has no trailing separator. -/
theorem normalizePath_abs (p : String) (hp : p ≠ "")
    (segs : List (List Char)) (hsp : splitSegs p.data = [] :: segs)
    (hsegs : segs ≠ []) (hplain : ∀ seg ∈ segs, plainSeg seg = true)
    (htr : p.data.getLast? ≠ some '/') :
    normalizePath p = p := by
  obtain ⟨r0, rs, hrr⟩ : ∃ r0 rs, segs = r0 :: rs := by
    cases h : segs with
    | nil => exact absurd h hsegs
    | cons r0 rs => exact ⟨r0, rs, rfl⟩
  have hr0 : r0 ≠ [] := by
    have h := hplain r0 (by rw [hrr]; exact List.mem_cons_self _ _)
    exact (by simpa [plainSeg, and_assoc] using h : r0 ≠ [] ∧ _).1
  have hpdata : p.data = '/' :: joinSegs segs := by
    have h1 := joinSegs_splitSegs p.data
    rw [hsp, hrr] at h1
    rw [← h1, hrr]
    simp [joinSegs]
  have habs : (decide (p.data.head? = some '/')) = true := by
    rw [hpdata]
    simp
  have htrf : (decide (p.data.getLast? = some '/')) = false := by
    simp [htr]
  have hnorm : normSegs false (splitSegs p.data) = segs := by
    rw [hsp]
    unfold normSegs
    rw [List.foldl_cons]
    have hstep0 : normStep false [] [] = [] := by
      unfold normStep
      rw [if_pos (Or.inl rfl)]
    rw [hstep0, normFold _ _ _ hplain]
    simp
  have hjne : joinSegs segs ≠ [] := by
    rw [hrr]
    rcases rs with _ | ⟨y, ys⟩ <;> simp [joinSegs, hr0]
  simp only [normalizePath]
  rw [if_neg hp, habs]
  simp only [Bool.not_true, hnorm, htrf]
  rw [if_neg hjne]
  simp only [Bool.false_eq_true, if_false, if_true]
  exact strEq_of_data hpdata.symm

/-- `path.normalize` is the identity on a relative path whose segments
are plain and which has no trailing separator. -/
theorem normalizePath_rel (p : String) (hp : p ≠ "")
    (hplain : ∀ seg ∈ splitSegs p.data, plainSeg seg = true)
    (habs : p.data.head? ≠ some '/')
    (htr : p.data.getLast? ≠ some '/') :
    normalizePath p = p := by
  have habsf : (decide (p.data.head? = some '/')) = false := by
    simp [habs]
  have htrf : (decide (p.data.getLast? = some '/')) = false := by
    simp [htr]
  have hnorm : normSegs true (splitSegs p.data) = splitSegs p.data := by
    unfold normSegs
    rw [normFold _ _ _ hplain]
    simp
  have hne : p.data ≠ [] := fun h => hp (data_eq_nil.1 h)
  simp only [normalizePath]
  rw [if_neg hp, habsf]
  simp only [Bool.not_false, hnorm, joinSegs_splitSegs, htrf]
  rw [if_neg hne]
  simp only [Bool.false_eq_true, if_false]
  exact asString_data p

/-- Appending a plain, separator-free segment to a normalized directory
is the case where Node's `path.join` is literal concatenation. -/
theorem pathJoin_plain (d s : String) (hd : normalizedDir d = true)
    (hs : plainSeg s.data = true) (hsl : '/' ∉ s.data) :
    pathJoin d s = d ++ "/" ++ s := by
  have hs3 : s.data ≠ [] ∧ s.data ≠ ['.'] ∧ s.data ≠ ['.', '.'] := by
    simpa [plainSeg, and_assoc] using hs
  have hsne : s ≠ "" := fun h => hs3.1 (by rw [h])
  have hdne : d ≠ "" := by
    intro h
    rw [h] at hd
    exact absurd hd (by decide)
  unfold pathJoin
  rw [if_neg (fun hc => hdne hc.1), if_neg hdne, if_neg hsne]
  have hpd : (d ++ "/" ++ s).data = d.data ++ '/' :: s.data := by
    simp [String.data_append]
  have hpne : (d ++ "/" ++ s) ≠ "" := by
    intro h
    have h2 := congrArg String.data h
    rw [hpd] at h2
    simp at h2
  obtain ⟨c0, t0, hs0⟩ : ∃ c t, s.data = c :: t := by
    cases hsd : s.data with
    | nil => exact absurd hsd hs3.1
    | cons c t => exact ⟨c, t, rfl⟩
  have htrail : (d ++ "/" ++ s).data.getLast? ≠ some '/' := by
    rw [hpd, hs0, List.getLast?_append_cons, List.getLast?_cons_cons]
    exact getLast?_no_slash s.data (hs0 ▸ hsl) |>.imp (fun a => a) |> fun _ =>
      (hs0 ▸ getLast?_no_slash s.data hsl)
  have hsplit : splitSegs (d ++ "/" ++ s).data = splitSegs d.data ++ [s.data] := by
    rw [hpd, splitSegs_append, splitSegs_single s.data hsl]
  unfold normalizedDir at hd
  rcases hsp : splitSegs d.data with _ | ⟨seg0, rest⟩
  · exact absurd hsp (splitSegs_ne_nil d.data)
  · rw [hsp] at hd
    have hdjoin : d.data = joinSegs (seg0 :: rest) := by
      rw [← hsp, joinSegs_splitSegs]
    rcases seg0 with _ | ⟨c, cs⟩
    · -- absolute directory: leading empty segment
      simp only [decide_eq_true_eq, Bool.and_eq_true, List.all_eq_true] at hd
      obtain ⟨hrne, hplain⟩ := hd
      obtain ⟨r0, rs, hrr⟩ : ∃ r0 rs, rest = r0 :: rs := by
        cases hr : rest with
        | nil => exact absurd hr hrne
        | cons r0 rs => exact ⟨r0, rs, rfl⟩
      refine normalizePath_abs (d ++ "/" ++ s) hpne (rest ++ [s.data]) ?_ (by simp) ?_ htrail
      · rw [hsplit, hsp]
        simp
      · intro seg hsm
        rcases List.mem_append.1 hsm with hm | hm
        · exact hplain seg hm
        · rw [List.mem_singleton.1 hm]
          exact hs
    · -- relative directory: all segments plain
      simp only [List.all_eq_true] at hd
      have hcslash : c ≠ '/' := by
        have h := splitSegs_no_slash d.data (c :: cs) (by rw [hsp]; simp)
        exact fun hc => h (hc ▸ List.mem_cons_self c cs)
      have hdcons : ∃ dt, d.data = c :: dt := by
        rw [hdjoin]
        rcases rest with _ | ⟨y, ys⟩
        · exact ⟨cs, rfl⟩
        · exact ⟨cs ++ '/' :: joinSegs (y :: ys), by simp [joinSegs]⟩
      obtain ⟨dt, hdt⟩ := hdcons
      refine normalizePath_rel (d ++ "/" ++ s) hpne ?_ ?_ htrail
      · intro seg hsm
        rw [hsplit, hsp] at hsm
        rcases List.mem_append.1 hsm with hm | hm
        · exact hd seg hm
        · rw [List.mem_singleton.1 hm]
          exact hs
      · rw [hpd, hdt]
        intro hcontra
        simp at hcontra
        exact hcslash hcontra

/-- Resolving the `try { validate } catch { default }` of
`getImgbytesizerPath` into the sanitization policy it implements. -/
theorem validate_fallback (raw : String) :
    (match validateImgbytesizerPath raw with
     | Except.ok p => p
     | Except.error _ => "imgbytesizer") =
      (if stripMeta raw = "imgbytesizer" ∨ strStarts (stripMeta raw) "/" = true ∨
          strStarts (stripMeta raw) "./" = true
       then stripMeta raw else "imgbytesizer") := by
  unfold validateImgbytesizerPath
  by_cases h1 : stripMeta raw = "imgbytesizer"
  · simp [h1]
  · by_cases h2 : strStarts (stripMeta raw) "/" = true
    · simp [h1, h2]
    · by_cases h3 : strStarts (stripMeta raw) "./" = true
      · simp [h1, h2, h3]
      · have h2f : strStarts (stripMeta raw) "/" = false := by
          cases hx : strStarts (stripMeta raw) "/" <;> simp_all
        have h3f : strStarts (stripMeta raw) "./" = false := by
          cases hx : strStarts (stripMeta raw) "./" <;> simp_all
        simp [h1, h2f, h3f]

/-! ### Claim theorems -/

/-- C9: for every invocation of `runImgbytesizer`, the returned
`ExecutionResult` carries an `outputPath` exactly when `success` is
`true`: every failure return omits it, the success return includes it. -/
theorem runResult_outputPath_iff_success (env : RunEnv) (imagePath : String)
    (options : ImgByteOptions) :
    ((runImgbytesizer env imagePath options).1.outputPath.isSome)
      = (runImgbytesizer env imagePath options).1.success := by
  unfold runImgbytesizer
  by_cases h0 : env.fs imagePath = false
  · simp [h0]
  · simp only [h0, if_false]
    cases env.spawn.error with
    | some e => simp
    | none =>
        by_cases h1 : env.spawn.status ≠ some 0
        · simp [h1]
        · by_cases h2 :
            env.fsAfterSpawn (resolvedOutputPath imagePath options) = false <;>
            simp [h1, h2]

/-- C5: when the input image path does not exist, `runImgbytesizer`
returns exactly the "Image file not found" failure and performs no side
effect at all (no directory creation, no spawn). -/
theorem run_missing_input (env : RunEnv) (imagePath : String) (options : ImgByteOptions)
    (h : env.fs imagePath = false) :
    runImgbytesizer env imagePath options =
      ({ success := false, message := "Image file not found: " ++ imagePath,
         outputPath := none }, []) := by
  unfold runImgbytesizer
  simp [h]

/-- C5 witness: a concrete environment where the input is absent. -/
theorem run_missing_input_witness :
    runImgbytesizer ⟨fun _ => false, fun _ => false, none, ⟨none, none, "", ""⟩⟩
        "/x/a.png" ⟨none, none, none, none, "500KB"⟩ =
      ({ success := false, message := "Image file not found: " ++ "/x/a.png",
         outputPath := none }, []) :=
  run_missing_input ⟨fun _ => false, fun _ => false, none, ⟨none, none, "", ""⟩⟩
    "/x/a.png" ⟨none, none, none, none, "500KB"⟩ rfl

/-- C4: for every configured executable-path value, `getImgbytesizerPath`
equals the sanitize-then-accept-or-default policy — the shell
metacharacters `;` `&` `|` backtick `$` are stripped from the trimmed
configured value, and any result that is neither exactly "imgbytesizer"
nor starting with "/" or "./" falls back to the bare default; being a
total function, it never throws to its caller. -/
theorem getImgbytesizerPath_sanitizes (config : Option String) :
    getImgbytesizerPath config =
      (let raw := match config with
                  | some s => if s = "" then "imgbytesizer" else trimWs s
                  | none => "imgbytesizer"
       let stripped := stripMeta raw
       if stripped = "imgbytesizer" ∨ strStarts stripped "/" = true ∨
          strStarts stripped "./" = true
       then stripped else "imgbytesizer") := by
  unfold getImgbytesizerPath
  exact validate_fallback _

/-- C1: if the input exists and the subprocess exits with status 0 but
the resolved output path does not exist afterwards, the result is a
failure whose message contains (indeed starts with) "Failed to create
output file"; a success result is returned exactly when the output file
exists — exit code 0 alone never yields success. -/
theorem run_exit_zero_needs_artifact (env : RunEnv) (imagePath : String)
    (options : ImgByteOptions) (hin : env.fs imagePath = true)
    (herr : env.spawn.error = none) (hst : env.spawn.status = some 0) :
    ((env.fsAfterSpawn (resolvedOutputPath imagePath options) = false →
        (runImgbytesizer env imagePath options).1.success = false ∧
        ∃ rest, (runImgbytesizer env imagePath options).1.message =
          "Failed to create output file" ++ rest)
     ∧ ((runImgbytesizer env imagePath options).1.success = true ↔
          env.fsAfterSpawn (resolvedOutputPath imagePath options) = true)) := by
  have hsplit : ("Failed to create output file: " : String)
      = "Failed to create output file" ++ ": " := by decide
  unfold runImgbytesizer
  rw [herr]
  simp only [hin, Bool.true_eq_false, if_false, hst]
  by_cases hafter : env.fsAfterSpawn (resolvedOutputPath imagePath options) = false
  · refine ⟨fun _ => ⟨by simp [hafter], ?_⟩, by simp [hafter]⟩
    refine ⟨": " ++ (resolvedOutputPath imagePath options ++ (". Command output: "
      ++ env.spawn.stdout)), ?_⟩
    simp [hafter, String.append_assoc]
    rw [hsplit, String.append_assoc]
  · simp [hafter]

/-- C1 witness: in `c1Env` the subprocess exits 0 but no output file
appears, and the result is the expected failure. -/
theorem run_exit_zero_needs_artifact_witness :
    (runImgbytesizer c1Env "/w/in.png" c1Opts).1.success = false ∧
      ∃ rest, (runImgbytesizer c1Env "/w/in.png" c1Opts).1.message =
        "Failed to create output file" ++ rest :=
  (run_exit_zero_needs_artifact c1Env "/w/in.png" c1Opts (by decide) rfl rfl).1 rfl

/-- C2 counterexample: in the claimed scenario (input `photo.jpg`, preset
`1MB`, stored defaults format `same` / minDimension `0` / exactSize
`true`) the subprocess is spawned with `["/p/photo.jpg", "1MB", "-o",
"/p/photo_resized.jpg"]` — not with the claimed two-element vector
`["/p/photo.jpg", "1MB"]`: the simple flow always sets the derived
default output path, so `-o` is emitted. -/
theorem simple_flow_two_arg_counterexample :
    (runImgbytesizer c2Env "/p/photo.jpg" c2Options).2 =
      [Effect.spawn "imgbytesizer" ["/p/photo.jpg", "1MB", "-o", "/p/photo_resized.jpg"]]
    ∧ ¬ (runImgbytesizer c2Env "/p/photo.jpg" c2Options).2 =
        [Effect.spawn "imgbytesizer" ["/p/photo.jpg", "1MB"]] :=
  ⟨by decide, by decide⟩

/-- C2 amended: in the simple-flow scenario the Subprocess Runner is
invoked with the arguments `["/p/photo.jpg", "1MB", "-o",
"/p/photo_resized.jpg"]` (the derived default output path is always
passed via `-o`) and no other optional flag, and on artifact creation
the result message is "Image resized successfully to 1MB". -/
theorem simple_flow_args_amended :
    resizeImage true (some "/p/photo.jpg") none c2Ui c2Cfg c2Env =
      [UiEvent.runTool "/p/photo.jpg" c2Options,
       UiEvent.showInfo
         "Image resized successfully to 1MB Output saved to: /p/photo_resized.jpg"]
    ∧ runImgbytesizer c2Env "/p/photo.jpg" c2Options =
      ({ success := true, message := "Image resized successfully to 1MB",
         outputPath := some "/p/photo_resized.jpg" },
       [Effect.spawn "imgbytesizer" ["/p/photo.jpg", "1MB", "-o", "/p/photo_resized.jpg"]]) :=
  ⟨by decide, by decide⟩

/-- The builder's argument vector agrees with the spec's fixed-order
description whenever the options are normalized (no empty-string
`outputPath` or `format`, as the data-model invariants of spec §3
guarantee). -/
theorem runArgs_eq_claimedArgs (p : String) (o : ImgByteOptions)
    (hout : o.outputPath ≠ some "") (hfmt : o.format ≠ some "") :
    runArgs p o = claimedArgs p o := by
  have hO : ∀ t, o.outputPath = some t → ¬(t = "") :=
    fun t h hh => hout (by rw [← hh]; exact h)
  have hF : ∀ g, o.format = some g → ¬(g = "") :=
    fun g h hh => hfmt (by rw [← hh]; exact h)
  unfold runArgs claimedArgs
  rcases ho : o.outputPath with _ | s <;> rcases hf : o.format with _ | f <;>
    rcases hm : o.minDimension with _ | (_ | n)
  all_goals try have hs1 := hO _ ho
  all_goals try have hf1 := hF _ hf
  all_goals try by_cases hsame : f = "same"
  all_goals try by_cases hn : (0 : Int) < n
  all_goals try have hnz : ¬(n = 0) := by omega
  all_goals simp_all
  all_goals (have hlt : ¬((0 : Int) < n) := by omega
             simp [hlt])

/-- The `--min-dimension` token occurs in the built vector exactly as
often as the minDimension guard fires, provided none of the data values
collides with the flag token. -/
theorem claimedArgs_flag_count (p : String) (o : ImgByteOptions)
    (hp : p ≠ "--min-dimension") (hts : o.targetSize ≠ "--min-dimension")
    (hov : ∀ s, o.outputPath = some s → s ≠ "--min-dimension")
    (hfv : ∀ f, o.format = some f → f ≠ "--min-dimension") :
    ((o.minDimension = none ∨ o.minDimension = some (some 0)) →
        (claimedArgs p o).count "--min-dimension" = 0)
    ∧ (o.minDimension = some (some 200) →
        (claimedArgs p o).count "--min-dimension" = 1) := by
  have h200 : (if (0 : Int) < 200 then ["--min-dimension", toString (200 : Int)]
      else ([] : List String)) = ["--min-dimension", "200"] := by decide
  constructor
  · intro hmd
    unfold claimedArgs
    rcases hmd with h | h <;> rw [h] <;>
      rcases ho : o.outputPath with _ | s <;> rcases hf : o.format with _ | f
    all_goals try have hs1 := hov _ ho
    all_goals try have hf1 := hfv _ hf
    all_goals try by_cases hsame : f = "same"
    all_goals by_cases he : o.exactSize = some false
    all_goals
      simp_all [List.count_append, List.count_cons, List.count_nil, beq_iff_eq,
        (show ("--no-exact" : String) ≠ "--min-dimension" by decide)]
  · intro hmd
    unfold claimedArgs
    rw [hmd]
    simp only [h200]
    rcases ho : o.outputPath with _ | s <;> rcases hf : o.format with _ | f
    all_goals try have hs1 := hov _ ho
    all_goals try have hf1 := hfv _ hf
    all_goals try by_cases hsame : f = "same"
    all_goals by_cases he : o.exactSize = some false
    all_goals
      simp_all [List.count_append, List.count_cons, List.count_nil, beq_iff_eq,
        (show ("--no-exact" : String) ≠ "--min-dimension" by decide),
        (show ("200" : String) ≠ "--min-dimension" by decide)]

/-- C3: for every image path and options value the subprocess argument
vector is built in the fixed order the spec describes (`[imagePath,
targetSize]`, then `-o` iff the output path is set, `-f` iff a
non-"same" format is set, `--min-dimension` with the stringified value
iff a positive minDimension is set, `--no-exact` iff exactSize is
exactly false); the flag never appears for minDimension 0/undefined and
appears exactly once, followed by "200", for minDimension 200.
Determinism is inherent: the vector is a function of the normalized
options. -/
theorem runArgs_fixed_order (p : String) (o : ImgByteOptions)
    (hout : o.outputPath ≠ some "") (hfmt : o.format ≠ some "")
    (hp : p ≠ "--min-dimension") (hts : o.targetSize ≠ "--min-dimension")
    (hov : ∀ s, o.outputPath = some s → s ≠ "--min-dimension")
    (hfv : ∀ f, o.format = some f → f ≠ "--min-dimension") :
    runArgs p o = claimedArgs p o
    ∧ ((o.minDimension = none ∨ o.minDimension = some (some 0)) →
        (runArgs p o).count "--min-dimension" = 0)
    ∧ (o.minDimension = some (some 200) →
        (runArgs p o).count "--min-dimension" = 1 ∧
        ∃ l₁ l₂, runArgs p o = l₁ ++ "--min-dimension" :: "200" :: l₂) := by
  have hargs := runArgs_eq_claimedArgs p o hout hfmt
  have hcount := claimedArgs_flag_count p o hp hts hov hfv
  refine ⟨hargs, ?_, ?_⟩
  · intro hmd
    rw [hargs]
    exact hcount.1 hmd
  · intro hmd
    constructor
    · rw [hargs]
      exact hcount.2 hmd
    · rw [hargs]
      unfold claimedArgs
      rw [hmd]
      have h200 : (if (0 : Int) < 200 then ["--min-dimension", toString (200 : Int)]
          else ([] : List String)) = ["--min-dimension", "200"] := by decide
      simp only [h200]
      exact exists_mid _ _ "--min-dimension" "200"

/-- C3 witness: minDimension 200 with otherwise empty options yields the
flag exactly once, followed by "200". -/
theorem runArgs_fixed_order_witness :
    (runArgs "/p/i.png"
        (⟨none, none, some (some 200), none, "250KB"⟩ : ImgByteOptions)).count
      "--min-dimension" = 1 ∧
    ∃ l₁ l₂, runArgs "/p/i.png"
        (⟨none, none, some (some 200), none, "250KB"⟩ : ImgByteOptions) =
      l₁ ++ "--min-dimension" :: "200" :: l₂ :=
  (runArgs_fixed_order "/p/i.png" ⟨none, none, some (some 200), none, "250KB"⟩
    (by decide) (by decide) (by decide) (by decide)
    (fun s h => nomatch h) (fun f h => nomatch h)).2.2 rfl

/-- C6 counterexample: for `/a/../image.jpg` the last-dot split gives
dir `/a/..`, stem `image` and extension `.jpg`, but the code returns
`/image_resized.jpg` — Node's `path.join` normalizes the `..` away — so
the literal `{dir}/{stem}_resized{ext}` formula claimed for every input
path is false. -/
theorem getDefaultOutputPath_norm_counterexample :
    parsePath "/a/../image.jpg" = ("/a/..", "image.jpg")
    ∧ splitBase "image.jpg" = ("image", ".jpg")
    ∧ getDefaultOutputPath "/a/../image.jpg" (some "same") = "/image_resized.jpg"
    ∧ ¬ getDefaultOutputPath "/a/../image.jpg" (some "same")
        = "/a/.." ++ "/" ++ "image" ++ "_resized" ++ ".jpg" :=
  ⟨by decide, by decide, by decide, by decide⟩

/-- C6 amended: `getDefaultOutputPath` splits the input into directory,
stem and extension with last-dot semantics and returns
`path.join(dir, stem) ++ "_resized" ++ ext` where `ext` is `.{format}`
for a non-"same", non-empty format and the original extension otherwise;
`path.join` normalizes the directory, so the literal
`{dir}/{stem}_resized{ext}` form holds whenever the directory is already
normalized and the stem is a plain segment; the three spec examples
hold (including the extensionless case, with no trailing dot). -/
theorem getDefaultOutputPath_spec :
    (∀ (p : String) (fmt : Option String),
        getDefaultOutputPath p fmt =
          pathJoin (parsePath p).1 (splitBase (parsePath p).2).1 ++ "_resized" ++
            (match fmt with
             | some f => if f ≠ "" && f ≠ "same" then "." ++ f
                         else (splitBase (parsePath p).2).2
             | none => (splitBase (parsePath p).2).2))
    ∧ (∀ (d s e : String) (fmt : Option String),
        normalizedDir d = true → plainSeg s.data = true →
        '/' ∉ s.data → '/' ∉ e.data → '.' ∉ e.data →
        getDefaultOutputPath (d ++ "/" ++ (s ++ "." ++ e)) fmt =
          d ++ "/" ++ s ++ "_resized" ++
            (match fmt with
             | some f => if f ≠ "" && f ≠ "same" then "." ++ f else "." ++ e
             | none => "." ++ e))
    ∧ getDefaultOutputPath "/a/b/image.jpg" (some "same") = "/a/b/image_resized.jpg"
    ∧ getDefaultOutputPath "/a/b/archive.tar.gz" (some "zip") = "/a/b/archive.tar_resized.zip"
    ∧ getDefaultOutputPath "/a/b/noext" (some "same") = "/a/b/noext_resized" := by
  refine ⟨fun p fmt => rfl, ?_, by decide, by decide, by decide⟩
  intro d s e fmt hnd hsp hs1 he1 he2
  have hs3 : s.data ≠ [] ∧ s.data ≠ ['.'] ∧ s.data ≠ ['.', '.'] := by
    simpa [plainSeg, and_assoc] using hsp
  have hsne : s ≠ "" := fun h => hs3.1 (by rw [h])
  have hsdot : s ≠ "." := fun h => hs3.2.1 (by rw [h])
  have hse : ¬(s = "." ∧ e = "") := fun h => hsdot h.1
  have hdne : d ≠ "" := by
    intro h
    rw [h] at hnd
    exact absurd hnd (by decide)
  have hbase : (s ++ "." ++ e) ≠ "" := by
    intro h
    have h2 := congrArg String.data h
    simp [String.data_append] at h2
  have hbdata : (s ++ "." ++ e).data = s.data ++ '.' :: e.data := by
    simp [String.data_append]
  have hbslash : '/' ∉ (s ++ "." ++ e).data := by
    rw [hbdata]
    intro h
    rcases List.mem_append.1 h with h | h
    · exact hs1 h
    · rcases List.mem_cons.1 h with h | h
      · exact absurd h (by decide)
      · exact he1 h
  have hjoin : pathJoin d s = d ++ "/" ++ s := pathJoin_plain d s hnd hsp hs1
  simp only [getDefaultOutputPath]
  rw [parsePath_concat d (s ++ "." ++ e) hbase hbslash]
  dsimp only
  rw [if_neg hdne, splitBase_concat s e hsne hse he2]
  dsimp only
  rw [hjoin]

/-- C6 witness: the last-dot clause at the spec's own multi-dot example,
`archive.tar.gz` converted to `zip`. -/
theorem getDefaultOutputPath_spec_witness :
    getDefaultOutputPath ("/a/b" ++ "/" ++ ("archive.tar" ++ "." ++ "gz")) (some "zip") =
      "/a/b" ++ "/" ++ "archive.tar" ++ "_resized" ++
        (match (some "zip" : Option String) with
         | some f => if f ≠ "" && f ≠ "same" then "." ++ f else "." ++ "gz"
         | none => "." ++ "gz") :=
  getDefaultOutputPath_spec.2.1 "/a/b" "archive.tar" "gz" (some "zip") (by decide)
    (by decide) (by decide) (by decide) (by decide)

/-- C10: a dotfile base name (leading dot, no further dot) is treated as
a pure stem with an empty extension — it is never read as an extension —
so `_resized` is appended after the full name and a non-"same" format
still appends `.{format}`; the output formula is stated for normalized
directories (where Node's `path.join` is literal concatenation), and
the two `.hidden` examples hold. -/
theorem getDefaultOutputPath_dotfile :
    (∀ (nm : String), '.' ∉ nm.data → splitBase ("." ++ nm) = ("." ++ nm, ""))
    ∧ (∀ (d nm : String) (fmt : Option String),
        normalizedDir d = true → nm ≠ "" → '/' ∉ nm.data → '.' ∉ nm.data →
        getDefaultOutputPath (d ++ "/" ++ ("." ++ nm)) fmt =
          d ++ "/" ++ ("." ++ nm) ++ "_resized" ++
            (match fmt with
             | some f => if f ≠ "" && f ≠ "same" then "." ++ f else ""
             | none => ""))
    ∧ getDefaultOutputPath "/a/.hidden" (some "same") = "/a/.hidden_resized"
    ∧ getDefaultOutputPath "/a/.hidden" (some "jpg") = "/a/.hidden_resized.jpg" := by
  refine ⟨fun nm h => splitBase_dotfile nm h, ?_, by decide, by decide⟩
  intro d nm fmt hnd hnm hn1 hn2
  have hbdata : ("." ++ nm).data = '.' :: nm.data := by simp [String.data_append]
  have hnmd : nm.data ≠ [] := fun h => hnm (data_eq_nil.1 h)
  have hbase : ("." ++ nm) ≠ "" := by
    intro h
    have h2 := congrArg String.data h
    rw [hbdata] at h2
    simp at h2
  have hdne : d ≠ "" := by
    intro h
    rw [h] at hnd
    exact absurd hnd (by decide)
  have hbplain : plainSeg ("." ++ nm).data = true := by
    rw [hbdata]
    have h1 : '.' :: nm.data ≠ [] := by simp
    have h2 : '.' :: nm.data ≠ ['.'] := by simp [hnmd]
    have h3 : '.' :: nm.data ≠ ['.', '.'] := by
      intro h
      simp only [List.cons.injEq, true_and] at h
      exact hn2 (h ▸ List.mem_cons_self '.' [])
    simp [plainSeg, h1, h2, h3]
  have hbslash : '/' ∉ ("." ++ nm).data := by
    rw [hbdata]
    intro h
    rcases List.mem_cons.1 h with h | h
    · exact absurd h (by decide)
    · exact hn1 h
  have hjoin : pathJoin d ("." ++ nm) = d ++ "/" ++ ("." ++ nm) :=
    pathJoin_plain d ("." ++ nm) hnd hbplain hbslash
  simp only [getDefaultOutputPath]
  rw [parsePath_concat d ("." ++ nm) hbase hbslash]
  dsimp only
  rw [if_neg hdne, splitBase_dotfile nm hn2]
  dsimp only
  rw [hjoin]

/-- C10 witness: the dotfile clause at `/a/.hidden` with format `jpg`. -/
theorem getDefaultOutputPath_dotfile_witness :
    getDefaultOutputPath ("/a" ++ "/" ++ ("." ++ "hidden")) (some "jpg") =
      "/a" ++ "/" ++ ("." ++ "hidden") ++ "_resized" ++
        (match (some "jpg" : Option String) with
         | some f => if f ≠ "" && f ≠ "same" then "." ++ f else ""
         | none => "") :=
  getDefaultOutputPath_dotfile.2.1 "/a" "hidden" (some "jpg") (by decide) (by decide)
    (by decide) (by decide)

/-- C7 counterexample: the input "3.7" does not denote a non-negative
integer, yet the prompt's inline validation accepts it, and
`parseInt("3.7", 10)` silently coerces it to 3. -/
theorem minDim_validation_counterexample :
    validateMinDimension "3.7" = none ∧ isNonNegIntegerLiteral "3.7" = false ∧
      parseIntTen "3.7" = some 3 :=
  ⟨by decide, by decide, by decide⟩

/-- C7 amended: the prompt accepts an input exactly when
`parseInt(input, 10)` yields a non-negative value; every canonical
non-negative integer numeral within the exactly-representable double
range (value below 2^53) is accepted and parsed to exactly the typed
integer, while a string with a numeric prefix (such as "3.7") is also
accepted and silently coerced to that prefix, and numerals beyond 2^53
are rounded to double precision ("9007199254740993" parses to
9007199254740992). -/
theorem minDim_validation_amended (s : String) :
    (validateMinDimension s = none ↔ ∃ n, parseIntTen s = some n ∧ 0 ≤ n)
    ∧ (isNonNegIntegerLiteral s = true →
        s.data.foldl (fun acc c => acc * 10 + (c.toNat - '0'.toNat)) 0 < 2 ^ 53 →
        parseIntTen s =
          some (Int.ofNat (s.data.foldl (fun acc c => acc * 10 + (c.toNat - '0'.toNat)) 0))
        ∧ validateMinDimension s = none)
    ∧ parseIntTen "9007199254740993" = some 9007199254740992 := by
  have hiff : validateMinDimension s = none ↔ ∃ n, parseIntTen s = some n ∧ 0 ≤ n := by
    unfold validateMinDimension
    rcases hp : parseIntTen s with _ | n
    · simp
    · by_cases hn : n < 0 <;> simp [hn] <;> omega
  refine ⟨hiff, fun hlit h53 => ?_, by decide⟩
  unfold isNonNegIntegerLiteral at hlit
  simp only [Bool.and_eq_true, decide_eq_true_eq, List.all_eq_true] at hlit
  obtain ⟨hne, hall⟩ := hlit
  obtain ⟨c, t, hct⟩ : ∃ c t, s.data = c :: t := by
    cases hd : s.data with
    | nil => exact absurd hd hne
    | cons c t => exact ⟨c, t, rfl⟩
  have hcd : c.isDigit = true := hall c (by rw [hct]; exact List.mem_cons_self c t)
  have hdw : wsChar c = false := digit_not_ws c hcd
  have hcm : c ≠ '-' := fun h => absurd (h ▸ hcd) (by decide)
  have hcp : c ≠ '+' := fun h => absurd (h ▸ hcd) (by decide)
  have hparse : parseIntTen s =
      some (Int.ofNat (s.data.foldl (fun acc ch => acc * 10 + (ch.toNat - '0'.toNat)) 0)) := by
    have hdrop : (c :: t).dropWhile wsChar = c :: t := by
      simp [List.dropWhile_cons, hdw]
    have htw : (c :: t).takeWhile Char.isDigit = c :: t :=
      takeWhile_all _ _ (fun x hx => hall x (hct ▸ hx))
    have hsign : (match c :: t with
        | '-' :: rest => (true, rest)
        | '+' :: rest => (false, rest)
        | _ => ((false : Bool), c :: t)) = ((false : Bool), c :: t) := by
      split
      · rename_i rest heq
        injection heq with h3 h4
        exact absurd h3 hcm
      · rename_i rest heq
        injection heq with h3 h4
        exact absurd h3 hcp
      · rfl
    have hround : roundDouble
        ((c :: t).foldl (fun acc ch => acc * 10 + (ch.toNat - '0'.toNat)) 0) =
        (c :: t).foldl (fun acc ch => acc * 10 + (ch.toNat - '0'.toNat)) 0 := by
      unfold roundDouble
      rw [if_pos (hct ▸ h53)]
    simp only [parseIntTen]
    rw [hct, hdrop, hsign]
    dsimp only
    rw [htw]
    have hnil : ¬(c :: t = []) := by simp
    rw [if_neg hnil, hround]
    rfl
  refine ⟨hparse, ?_⟩
  rw [hiff]
  exact ⟨_, hparse, Int.ofNat_nonneg _⟩

/-- C7 witness: the canonical numeral "42" is accepted and parsed to
exactly 42. -/
theorem minDim_validation_witness :
    parseIntTen "42" =
      some (Int.ofNat ("42".data.foldl (fun acc c => acc * 10 + (c.toNat - '0'.toNat)) 0))
    ∧ validateMinDimension "42" = none :=
  (minDim_validation_amended "42").2.1 (by decide) (by decide)

/-- C8: once the guards pass, every prompt cancellation (a `none` answer)
terminates the flow: the advanced collector yields no options exactly
when some prompt was cancelled, and both the simple and the advanced
command produce no further events — no tool run, no error shown. -/
theorem cancellation_aborts (installed : Bool) (uriPath activeFilePath : Option String)
    (ui : Ui) (c : ExtConfig) (env : RunEnv) (imagePath originalExt : String)
    (hi : installed = true)
    (hr : resolveImagePath uriPath activeFilePath = some imagePath)
    (hsupp : supportedImage imagePath = true) :
    (getUserOptions ui imagePath originalExt = none ↔
        (showTargetSizeQuickPick ui = none ∨ ui.formatPick = none ∨
         ui.outPathInput = none ∨ ui.minDimInput = none ∨ ui.exactPick = none))
    ∧ (showTargetSizeQuickPick ui = none →
        resizeImage installed uriPath activeFilePath ui c env = [])
    ∧ (getUserOptions ui imagePath (extname imagePath) = none →
        resizeImageWithOptions installed uriPath activeFilePath ui env = []) := by
  subst hi
  refine ⟨?_, ?_, ?_⟩
  · unfold getUserOptions
    rcases h1 : showTargetSizeQuickPick ui with _ | ts <;>
      rcases h2 : ui.formatPick with _ | fv <;>
        rcases h3 : ui.outPathInput with _ | ov <;>
          rcases h4 : ui.minDimInput with _ | mv <;>
            rcases h5 : ui.exactPick with _ | ev <;>
              simp [h1, h2, h3, h4, h5]
  · intro hcancel
    unfold resizeImage
    rw [hr]
    simp [hsupp, hcancel]
  · intro hnone
    unfold resizeImageWithOptions
    rw [hr]
    simp [hsupp, hnone]

/-- C8 witness: with every prompt cancelled, both flows produce no
events and the collector yields no options. -/
theorem cancellation_aborts_witness :
    (getUserOptions c8Ui "/w/pic.png" ".png" = none ↔
        (showTargetSizeQuickPick c8Ui = none ∨ c8Ui.formatPick = none ∨
         c8Ui.outPathInput = none ∨ c8Ui.minDimInput = none ∨ c8Ui.exactPick = none))
    ∧ (showTargetSizeQuickPick c8Ui = none →
        resizeImage true (some "/w/pic.png") none c8Ui c8Cfg c8Env = [])
    ∧ (getUserOptions c8Ui "/w/pic.png" (extname "/w/pic.png") = none →
        resizeImageWithOptions true (some "/w/pic.png") none c8Ui c8Env = []) :=
  cancellation_aborts true (some "/w/pic.png") none c8Ui c8Cfg c8Env "/w/pic.png" ".png"
    rfl rfl (by decide)

end ImgBytes
